import Mathlib

/-!
Verification development for the SPDX SBOM generator core
(pkg/spdx/implementation.go of the bom repository).

The Go source is shallowly embedded: pure fragments become Lean
functions, and the I/O environment (temp-dir creation, file opening,
the bytes a tar reader yields, gitignore file contents, registry
lookups) is passed in explicitly as input records.  The host platform
is fixed to Linux, so os.PathSeparator is the slash and
path/filepath operations coincide with the slash-based path package.

String handling is implemented over List Char with structural
recursion so that every definition evaluates inside the kernel.
-/

/-! ## Go string primitives (strings package, restricted to what the source uses) -/

/-- Splits a character list at every occurrence of the separator, keeping
empty fields, exactly like strings.Split does for a one-character separator. -/
def splitCharList (c : Char) : List Char → List (List Char)
  | [] => [[]]
  | x :: xs =>
    match splitCharList c xs with
    | h :: t => if x = c then [] :: h :: t else (x :: h) :: t
    | [] => [[x]]

/-- strings.Split with a one-character separator. -/
def goSplit (c : Char) (s : String) : List String :=
  (splitCharList c s.data).map String.mk

/-- Joins character lists with a separator character (inverse of splitCharList). -/
def joinChar (c : Char) : List (List Char) → List Char
  | [] => []
  | [x] => x
  | x :: y :: t => x ++ c :: joinChar c (y :: t)

/-- strings.Join with a one-character separator. -/
def goJoinStrings (c : Char) (parts : List String) : String :=
  String.mk (joinChar c (parts.map String.data))

/-- strings.HasPrefix. -/
def hasPfx (pre s : String) : Bool := pre.data.isPrefixOf s.data

/-- strings.HasSuffix. -/
def hasSfx (suf s : String) : Bool := suf.data.isSuffixOf s.data

/-- strings.Contains for a one-character needle. -/
def containsChar (c : Char) (s : String) : Bool := s.data.any (fun x => x = c)

/-- strings.TrimSuffix. -/
def trimSfx (s suf : String) : String :=
  if hasSfx suf s then String.mk (s.data.take (s.data.length - suf.data.length)) else s

/-- strings.TrimSpace, restricted to ASCII whitespace (the source only ever
trims gitignore lines, which are ASCII). -/
def goTrimSpace (s : String) : String :=
  let ws := fun ch : Char => ch = ' ' ∨ ch = '\t' ∨ ch = '\n' ∨ ch = '\r'
  String.mk (((s.data.dropWhile ws).reverse.dropWhile ws).reverse)

/-! ## Go path primitives (path and path/filepath packages on Linux) -/

/-- path.Clean / filepath.Clean on Linux: lexical cleaning.  Empty path maps
to a dot; repeated separators collapse; single-dot elements vanish; a
double-dot pops the preceding element when one exists, is dropped at the
root, and is kept at the head of a relative path. -/
def goClean (path : String) : String :=
  if path = "" then "."
  else
    let rooted := hasPfx "/" path
    let comps := goSplit '/' path
    let stack := comps.foldl
      (fun st c =>
        if c = "" ∨ c = "." then st
        else if c = ".." then
          if st ≠ [] ∧ st.getLast? ≠ some ".." then st.dropLast
          else if rooted then st
          else st ++ [".."]
        else st ++ [c])
      []
    let body := goJoinStrings '/' stack
    if rooted then (if body = "" then "/" else "/" ++ body)
    else (if body = "" then "." else body)

/-- filepath.Join for two elements: non-empty elements joined with the
separator, then cleaned; all-empty input yields the empty string. -/
def goJoin (a b : String) : String :=
  if a = "" ∧ b = "" then ""
  else if a = "" then goClean b
  else if b = "" then goClean a
  else goClean (a ++ "/" ++ b)

/-- path.Base: empty maps to a dot, trailing separators are dropped, the
last element is returned, and an all-separator path maps to the root. -/
def goBase (s : String) : String :=
  if s = "" then "."
  else
    let t := String.mk ((s.data.reverse.dropWhile (fun ch => ch = '/')).reverse)
    if t = "" then "/"
    else (goSplit '/' t).getLastD ""

/-- path.Dir / filepath.Dir on Linux: everything before the final separator
(keeping that separator), cleaned; a separator-free path maps to a dot. -/
def goDir (s : String) : String :=
  let parts := goSplit '/' s
  if parts.length ≤ 1 then "." else goClean (goJoinStrings '/' parts.dropLast ++ "/")

/-! ## Tar engine: sanitizeExtractPath and ExtractTarballTmp -/

/-- sanitizeExtractPath (implementation.go lines 164-171): joins the temp dir
with the entry path and rejects the result unless it is a strict descendant
of the cleaned temp dir followed by the separator (Zip-Slip guard). -/
def sanitizeExtractPath (tmpDir filePath : String) : Except String String :=
  let destpath := goJoin tmpDir filePath
  if !(hasPfx (goClean tmpDir ++ "/") destpath) then
    Except.error (filePath ++ ": illegal file path")
  else
    Except.ok destpath

/-- One tar entry as the archive/tar reader presents it: the header name,
whether the header marks a directory (typeflag), whether the typeflag is a
header-only type carrying no data body (link, symlink, char, block or fifo
device, fifo), the declared Size field, and the number of body bytes the
reader can actually deliver for a regular entry (less than size when the
underlying stream is truncated; irrelevant for header-only typeflags, whose
reads yield no bytes at all). -/
structure TarEntry where
  name : String
  isDir : Bool
  headerOnly : Bool := false
  size : Nat
  avail : Nat
deriving DecidableEq, Repr

/-- The error io.CopyN reports for one entry.  For a regular entry,
archive/tar caps each read at the header size and converts a premature end
of the underlying stream inside the body into ErrUnexpectedEOF
(regFileReader), so a truncated regular body never surfaces as a bare
io.EOF.  For header-only typeflags (link, symlink, char, block, fifo) the
reader returns zero bytes and io.EOF no matter what the Size field claims,
so io.CopyN over such an entry with a nonzero Size returns a bare io.EOF:
the cleanEOF outcome. -/
inductive CopyErr where
  | cleanEOF
  | unexpEOF
deriving DecidableEq, Repr

/-- io.CopyN error outcome for one entry, per the tar reader semantics
above: a header-only entry delivers zero bytes, so the copy ends in a bare
io.EOF unless the Size field is zero; a regular entry ends in
ErrUnexpectedEOF exactly when the stream delivers fewer than Size bytes. -/
def copyNErr (e : TarEntry) : Option CopyErr :=
  if e.headerOnly then
    (if e.size = 0 then none else some CopyErr.cleanEOF)
  else
    (if e.avail < e.size then some CopyErr.unexpEOF else none)

/-- The I/O environment of one ExtractTarballTmp call: the temp directory
os.MkdirTemp produced, the tarball path, the raw leading bytes of the file
(for the three-byte compression sniff), whether gzip.NewReader succeeds
when the sniff says gzip, the entries the tar reader yields, and whether
the reader fails (with a non-EOF error) after the listed entries. -/
structure ExtractInput where
  tmpDir : String
  tarPath : String
  rawBytes : List Nat
  gzipOk : Bool
  entries : List TarEntry
  readErr : Bool
deriving DecidableEq, Repr

/-- Observable outcome of ExtractTarballTmp: the directory string returned,
the files created (path paired with the number of body bytes written into
it), the tally of extracted files, and the error, if any.  Directories made
by os.MkdirAll are not tracked; only regular file creation is. -/
structure ExtractState where
  dir : String
  files : List (String × Nat)
  count : Nat
  error : Option String
deriving DecidableEq, Repr

/-- The gzip magic check of lines 97-99: first three bytes 1f 8b 08. -/
def isGzipHeader (bs : List Nat) : Bool :=
  match bs with
  | b0 :: b1 :: b2 :: _ => b0 = 0x1f && b1 = 0x8b && b2 = 0x08
  | _ => false

/-- The entry loop of ExtractTarballTmp (lines 111-156): skip directory
headers, skip whiteout base names, sanitize the destination, create the
file, copy the body.  A bare io.EOF from the copy breaks the loop and
returns the nil outer error, leaving later entries unprocessed (line 147;
reachable through a header-only entry with a nonzero Size field); any other
copy error, and any illegal path, aborts with the temp dir still
returned. -/
def extractLoop (tmpDir tarPath : String) (readErr : Bool) :
    List TarEntry → List (String × Nat) → Nat → ExtractState
  | [], files, count =>
    if readErr then
      { dir := tmpDir, files := files, count := count,
        error := some ("reading tarfile " ++ tarPath) }
    else
      { dir := tmpDir, files := files, count := count, error := none }
  | e :: rest, files, count =>
    if e.isDir then extractLoop tmpDir tarPath readErr rest files count
    else if hasPfx ".wh" (goBase e.name) then
      extractLoop tmpDir tarPath readErr rest files count
    else
      match sanitizeExtractPath tmpDir e.name with
      | Except.error msg =>
        { dir := tmpDir, files := files, count := count, error := some msg }
      | Except.ok targetFile =>
        let copied := if e.headerOnly then 0 else min e.size e.avail
        match copyNErr e with
        | some CopyErr.cleanEOF =>
          { dir := tmpDir, files := files ++ [(targetFile, copied)],
            count := count, error := none }
        | some CopyErr.unexpEOF =>
          { dir := tmpDir, files := files ++ [(targetFile, copied)],
            count := count,
            error := some ("extracting image data: unexpected EOF") }
        | none =>
          extractLoop tmpDir tarPath readErr rest
            (files ++ [(targetFile, copied)]) (count + 1)

/-- ExtractTarballTmp (lines 74-160).  os.MkdirTemp and os.Open are assumed
to succeed (their failures occur before anything claim-relevant).  A failed
three-byte sample, and a failed gzip reader construction, return the empty
directory string, mirroring the early returns of lines 90-92 and 103-106
(the rewind of lines 93-95 is treated as always succeeding; it sits in the
same empty-string-returning group). -/
def ExtractTarballTmp (inp : ExtractInput) : ExtractState :=
  if inp.rawBytes.length < 3 then
    { dir := "", files := [], count := 0,
      error := some ("sampling bytes from file header: EOF") }
  else if isGzipHeader inp.rawBytes && !inp.gzipOk then
    { dir := "", files := [], count := 0, error := some ("gzip: invalid header") }
  else
    extractLoop inp.tmpDir inp.tarPath inp.readErr inp.entries [] 0

/-- Whether the destination of an entry name escapes the temp dir, i.e. the
negation of the strict-descendant test of sanitizeExtractPath. -/
def destEscapes (tmpDir name : String) : Bool :=
  !(hasPfx (goClean tmpDir ++ "/") (goJoin tmpDir name))

/-- Whether one entry passes through the loop without stopping it: it is a
directory header, a whiteout, or a sanitized entry whose copy ends without
an error or a loop-breaking bare io.EOF (full body available for a regular
entry, zero declared Size for a header-only one). -/
def entryOk (tmpDir : String) (e : TarEntry) : Bool :=
  e.isDir || hasPfx ".wh" (goBase e.name) ||
    (!(destEscapes tmpDir e.name) &&
      (if e.headerOnly then e.size == 0 else Nat.ble e.size e.avail))

/-- Entries that the loop extracts as files: neither directory headers nor
whiteouts. -/
def isFileEntry (e : TarEntry) : Bool :=
  !e.isDir && !(hasPfx ".wh" (goBase e.name))

example : goClean "/tmp/x/../escape.txt" = "/tmp/escape.txt" := rfl
example : goClean "a/b/../../../c" = "../c" := rfl
example : goClean "" = "." := rfl
example : goClean "/" = "/" := rfl
example : goJoin "/tmp/x" "../escape.txt" = "/tmp/escape.txt" := rfl
example : goJoin "/tmp/x" "a.txt" = "/tmp/x/a.txt" := rfl
example : goBase "dir/.wh.x" = ".wh.x" := rfl
example : goBase "" = "." := rfl
example : goBase "//" = "/" := rfl
example : goDir "/a" = "/" := rfl
example : goDir "a/b" = "a" := rfl
example : goDir "a" = "." := rfl
example : destEscapes "/tmp/x" "../escape.txt" = true := rfl
example : destEscapes "/tmp/x" "a/b.txt" = false := rfl
example :
    ExtractTarballTmp
      { tmpDir := "/tmp/x", tarPath := "t.tar", rawBytes := [0, 0, 0],
        gzipOk := true,
        entries := [{ name := "a.txt", isDir := false, size := 2, avail := 2 }],
        readErr := false } =
    { dir := "/tmp/x", files := [("/tmp/x/a.txt", 2)], count := 1, error := none } := rfl

/-! ## Lemmas about the tar engine -/

theorem sanitize_of_escapes {t n : String} (h : destEscapes t n = true) :
    sanitizeExtractPath t n = Except.error (n ++ ": illegal file path") := by
  have hx : hasPfx (goClean t ++ "/") (goJoin t n) = false := by
    simpa [destEscapes] using h
  simp [sanitizeExtractPath, hx]

theorem sanitize_of_inside {t n : String} (h : destEscapes t n = false) :
    sanitizeExtractPath t n = Except.ok (goJoin t n) := by
  have hx : hasPfx (goClean t ++ "/") (goJoin t n) = true := by
    simpa [destEscapes] using h
  simp [sanitizeExtractPath, hx]

theorem copyNErr_cleanEOF_elim {e : TarEntry}
    (h : copyNErr e = some CopyErr.cleanEOF) :
    e.headerOnly = true ∧ e.size ≠ 0 := by
  unfold copyNErr at h
  split at h
  · next hh =>
    split at h
    · simp at h
    · next hz => exact ⟨hh, hz⟩
  · split at h <;> simp at h

theorem copyNErr_of_short {e : TarEntry} (hho : e.headerOnly = false)
    (h : e.avail < e.size) : copyNErr e = some CopyErr.unexpEOF := by
  simp [copyNErr, hho, h]

theorem copyNErr_of_full {e : TarEntry} (hho : e.headerOnly = false)
    (h : e.size ≤ e.avail) : copyNErr e = none := by
  simp [copyNErr, hho, Nat.not_lt.mpr h]

theorem copyNErr_of_zero {e : TarEntry} (hho : e.headerOnly = true)
    (hz : e.size = 0) : copyNErr e = none := by
  simp [copyNErr, hho, hz]

theorem extractLoop_dir (t p : String) (re : Bool) (es : List TarEntry) :
    ∀ files c, (extractLoop t p re es files c).dir = t := by
  induction es with
  | nil => intro files c; by_cases h : re = true <;> simp [extractLoop, h]
  | cons e rest ih =>
    intro files c
    by_cases hd : e.isDir = true
    · simp [extractLoop, hd, ih]
    · by_cases hw : hasPfx ".wh" (goBase e.name) = true
      · simp [extractLoop, hd, hw, ih]
      · rcases hs : sanitizeExtractPath t e.name with msg | target
        · simp [extractLoop, hd, hw, hs]
        · rcases hc : copyNErr e with _ | ce
          · simp [extractLoop, hd, hw, hs, hc, ih]
          · cases ce <;> simp [extractLoop, hd, hw, hs, hc]

theorem extractLoop_files_mem (t p : String) (re : Bool) (es : List TarEntry) :
    ∀ files c x, x ∈ files → x ∈ (extractLoop t p re es files c).files := by
  induction es with
  | nil => intro files c x hx; by_cases h : re = true <;> simp [extractLoop, h, hx]
  | cons e rest ih =>
    intro files c x hx
    by_cases hd : e.isDir = true
    · simpa [extractLoop, hd] using ih files c x hx
    · by_cases hw : hasPfx ".wh" (goBase e.name) = true
      · simpa [extractLoop, hd, hw] using ih files c x hx
      · rcases hs : sanitizeExtractPath t e.name with msg | target
        · simp [extractLoop, hd, hw, hs, hx]
        · rcases hc : copyNErr e with _ | ce
          · have := ih
              (files ++ [(target, if e.headerOnly then 0 else min e.size e.avail)])
              (c + 1) x (by simp [hx])
            simpa [extractLoop, hd, hw, hs, hc] using this
          · cases ce <;> simp [extractLoop, hd, hw, hs, hc, hx]

theorem extractLoop_reach (t p : String) (re : Bool) (rest : List TarEntry)
    (pre : List TarEntry) (hpre : ∀ x ∈ pre, entryOk t x = true) :
    ∀ files c,
      ∃ files2 c2,
        extractLoop t p re (pre ++ rest) files c = extractLoop t p re rest files2 c2 ∧
        (∀ x ∈ files2, x ∈ files ∨ hasPfx (goClean t ++ "/") x.1 = true) := by
  induction pre with
  | nil =>
    intro files c
    exact ⟨files, c, rfl, fun x hx => Or.inl hx⟩
  | cons e pre ih =>
    intro files c
    have he : entryOk t e = true := hpre e (by simp)
    have hpre2 : ∀ x ∈ pre, entryOk t x = true := fun x hx => hpre x (by simp [hx])
    by_cases hd : e.isDir = true
    · have hstep : extractLoop t p re ((e :: pre) ++ rest) files c =
          extractLoop t p re (pre ++ rest) files c := by
        simp [extractLoop, hd]
      rcases ih hpre2 files c with ⟨files2, c2, heq, hmem⟩
      exact ⟨files2, c2, hstep.trans heq, hmem⟩
    · by_cases hw : hasPfx ".wh" (goBase e.name) = true
      · have hstep : extractLoop t p re ((e :: pre) ++ rest) files c =
            extractLoop t p re (pre ++ rest) files c := by
          simp [extractLoop, hd, hw]
        rcases ih hpre2 files c with ⟨files2, c2, heq, hmem⟩
        exact ⟨files2, c2, hstep.trans heq, hmem⟩
      · have hrest : destEscapes t e.name = false ∧
            (if e.headerOnly then e.size == 0 else Nat.ble e.size e.avail) = true := by
          have h2 := he
          simp only [entryOk, Bool.or_eq_true, Bool.and_eq_true, Bool.not_eq_true'] at h2
          rcases h2 with (h2 | h2) | h2
          · exact absurd h2 hd
          · exact absurd h2 hw
          · exact h2
        obtain ⟨hesc, hcopyok⟩ := hrest
        have hs := sanitize_of_inside hesc
        have hc : copyNErr e = none := by
          cases hh : e.headerOnly
          · rw [hh] at hcopyok
            exact copyNErr_of_full hh
              (Nat.le_of_ble_eq_true (by simpa using hcopyok))
          · rw [hh] at hcopyok
            exact copyNErr_of_zero hh (by simpa using hcopyok)
        have hstep : extractLoop t p re ((e :: pre) ++ rest) files c =
            extractLoop t p re (pre ++ rest)
              (files ++ [(goJoin t e.name,
                if e.headerOnly then 0 else min e.size e.avail)]) (c + 1) := by
          simp [extractLoop, hd, hw, hs, hc]
        rcases ih hpre2
            (files ++ [(goJoin t e.name,
              if e.headerOnly then 0 else min e.size e.avail)]) (c + 1) with
          ⟨files2, c2, heq, hmem⟩
        refine ⟨files2, c2, hstep.trans heq, fun x hx => ?_⟩
        rcases hmem x hx with hx2 | hx2
        · rcases List.mem_append.mp hx2 with hx3 | hx3
          · exact Or.inl hx3
          · refine Or.inr ?_
            have hx4 : x = (goJoin t e.name,
                if e.headerOnly then 0 else min e.size e.avail) := by simpa using hx3
            subst hx4
            simpa [destEscapes] using hesc
        · exact Or.inr hx2

theorem extractLoop_count (t p : String) (re : Bool) :
    ∀ es : List TarEntry, (∀ e ∈ es, e.headerOnly = true → e.size = 0) →
      ∀ files c, (extractLoop t p re es files c).error = none →
        (extractLoop t p re es files c).count = c + (es.filter isFileEntry).length := by
  intro es
  induction es with
  | nil =>
    intro _ files c h
    cases hre : re
    · simp [extractLoop, hre]
    · rw [hre] at h; simp [extractLoop] at h
  | cons e rest ih =>
    intro hsafe files c h
    have hsafe2 : ∀ x ∈ rest, x.headerOnly = true → x.size = 0 :=
      fun x hx => hsafe x (List.mem_cons_of_mem e hx)
    cases hd : e.isDir
    · by_cases hw : hasPfx ".wh" (goBase e.name) = true
      · have hstep : extractLoop t p re (e :: rest) files c =
            extractLoop t p re rest files c := by
          simp [extractLoop, hd, hw]
        rw [hstep] at h
        have hf : isFileEntry e = false := by simp [isFileEntry, hw]
        rw [hstep, ih hsafe2 files c h]
        simp [List.filter_cons, hf]
      · rcases hs : sanitizeExtractPath t e.name with msg | target
        · have hstep : extractLoop t p re (e :: rest) files c =
              { dir := t, files := files, count := c, error := some msg } := by
            simp [extractLoop, hd, hw, hs]
          rw [hstep] at h
          simp at h
        · rcases hc : copyNErr e with _ | ce
          · have hstep : extractLoop t p re (e :: rest) files c =
                extractLoop t p re rest
                  (files ++ [(target, if e.headerOnly then 0 else min e.size e.avail)])
                  (c + 1) := by
              simp [extractLoop, hd, hw, hs, hc]
            rw [hstep] at h
            have hf : isFileEntry e = true := by simp [isFileEntry, hd, hw]
            rw [hstep, ih hsafe2 _ (c + 1) h]
            simp [List.filter_cons, hf]
            omega
          · cases ce
            · obtain ⟨hh, hz⟩ := copyNErr_cleanEOF_elim hc
              exact absurd (hsafe e (List.mem_cons_self e rest) hh) hz
            · have hstep : extractLoop t p re (e :: rest) files c =
                  { dir := t,
                    files := files ++
                      [(target, if e.headerOnly then 0 else min e.size e.avail)],
                    count := c,
                    error := some ("extracting image data: unexpected EOF") } := by
                simp [extractLoop, hd, hw, hs, hc]
              rw [hstep] at h
              simp at h
    · have hstep : extractLoop t p re (e :: rest) files c =
          extractLoop t p re rest files c := by
        simp [extractLoop, hd]
      rw [hstep] at h
      have hf : isFileEntry e = false := by simp [isFileEntry, hd]
      rw [hstep, ih hsafe2 files c h]
      simp [List.filter_cons, hf]

/-! ## Claims C1-C4: the tar engine -/

/-- Concrete input refuting C1 as stated: a tar whose single entry is a
directory header named with an escaping path.  The entry is skipped before
the Zip-Slip guard runs, so the extraction succeeds with no error. -/
def c1cex : ExtractInput :=
  { tmpDir := "/tmp/x", tarPath := "t.tar", rawBytes := [0, 0, 0], gzipOk := true,
    entries := [{ name := "../escape", isDir := true, size := 0, avail := 0 }],
    readErr := false }

/-- C1, counterexample: the lone entry of c1cex has an escaping destination
path, yet ExtractTarballTmp returns no error (and creates no file), refuting
the claim quantified over every tar entry. -/
theorem ExtractTarballTmp_illegal_path_cex :
    destEscapes c1cex.tmpDir "../escape" = true ∧
    (ExtractTarballTmp c1cex).error = none ∧
    (ExtractTarballTmp c1cex).files = [] :=
  ⟨rfl, rfl, rfl⟩

/-- C1 (amended): for every tar entry that is neither a directory header nor
a whiteout, that the extraction loop reaches (all earlier entries are
skipped or extracted cleanly), and whose destination path, the join of the
temp directory and the entry name after cleaning, is not a strict
descendant of the cleaned temp directory followed by the separator,
ExtractTarballTmp fails with an error matching "illegal file path", and no
file is created at that escaping path. -/
theorem ExtractTarballTmp_illegal_path (inp : ExtractInput)
    (pre post : List TarEntry) (e : TarEntry)
    (hsplit : inp.entries = pre ++ e :: post)
    (hpre : ∀ x ∈ pre, entryOk inp.tmpDir x = true)
    (hdir : e.isDir = false)
    (hwh : hasPfx ".wh" (goBase e.name) = false)
    (hesc : destEscapes inp.tmpDir e.name = true)
    (hraw : 3 ≤ inp.rawBytes.length)
    (hgz : isGzipHeader inp.rawBytes = true → inp.gzipOk = true) :
    (ExtractTarballTmp inp).error = some (e.name ++ ": illegal file path") ∧
    ∀ n, (goJoin inp.tmpDir e.name, n) ∉ (ExtractTarballTmp inp).files := by
  have hcond : (isGzipHeader inp.rawBytes && !inp.gzipOk) = false := by
    cases hh : isGzipHeader inp.rawBytes
    · simp
    · simp [hgz hh]
  have hun : ExtractTarballTmp inp =
      extractLoop inp.tmpDir inp.tarPath inp.readErr inp.entries [] 0 := by
    simp [ExtractTarballTmp, Nat.not_lt.mpr hraw, hcond]
  rcases extractLoop_reach inp.tmpDir inp.tarPath inp.readErr (e :: post) pre hpre [] 0 with
    ⟨files2, c2, heq, hmem⟩
  have hstep : extractLoop inp.tmpDir inp.tarPath inp.readErr (e :: post) files2 c2 =
      { dir := inp.tmpDir, files := files2, count := c2,
        error := some (e.name ++ ": illegal file path") } := by
    simp [extractLoop, hdir, hwh, sanitize_of_escapes hesc]
  have hfull : ExtractTarballTmp inp =
      { dir := inp.tmpDir, files := files2, count := c2,
        error := some (e.name ++ ": illegal file path") } := by
    rw [hun, hsplit, heq, hstep]
  constructor
  · rw [hfull]
  · intro n hn
    rw [hfull] at hn
    rcases hmem _ hn with h0 | h0
    · simp at h0
    · have hx : hasPfx (goClean inp.tmpDir ++ "/") (goJoin inp.tmpDir e.name) = false := by
        simpa [destEscapes] using hesc
      rw [hx] at h0
      exact Bool.noConfusion h0

/-- The concrete input of C1 amended at work: one regular entry named with an
escaping relative path. -/
def c1wit : ExtractInput :=
  { tmpDir := "/tmp/x", tarPath := "t.tar", rawBytes := [0, 0, 0], gzipOk := true,
    entries := [{ name := "../escape.txt", isDir := false, size := 0, avail := 0 }],
    readErr := false }

/-- Witness for C1: the escaping regular entry aborts the extraction with the
illegal-file-path error and no file is created at the escaping destination. -/
theorem ExtractTarballTmp_illegal_path_witness :
    (ExtractTarballTmp c1wit).error = some ("../escape.txt: illegal file path") ∧
    ∀ n, ("/tmp/escape.txt", n) ∉ (ExtractTarballTmp c1wit).files := by
  have h := ExtractTarballTmp_illegal_path c1wit [] []
    { name := "../escape.txt", isDir := false, size := 0, avail := 0 }
    rfl (by simp) rfl rfl rfl (by decide)
    (fun hh => absurd hh (by decide))
  exact ⟨h.1, fun n => h.2 n⟩

/-- Concrete input refuting C2 as stated: the tarball is shorter than three
bytes, so the header sample fails after the temp dir was created, and the
function returns the empty string instead of the temp dir (line 91 of the
source), leaking the directory. -/
def c2cex : ExtractInput :=
  { tmpDir := "/tmp/spdx-tar-extract-1", tarPath := "t.tar", rawBytes := [0x1f],
    gzipOk := true, entries := [], readErr := false }

/-- C2, counterexample: on c2cex the extraction fails after the temp dir was
created, yet the returned directory string is empty, not the temp dir. -/
theorem ExtractTarballTmp_dir_cex :
    (ExtractTarballTmp c2cex).error.isSome = true ∧
    (ExtractTarballTmp c2cex).dir = "" ∧
    c2cex.tmpDir ≠ "" := by
  refine ⟨rfl, rfl, by decide⟩

/-- C2 (amended): for every input on which ExtractTarballTmp fails after the
temp directory was created, except a failure while sampling the three header
bytes, rewinding, or constructing the gzip reader (those early returns yield
the empty string), the returned directory string is the path of the created
temp directory, never empty. -/
theorem ExtractTarballTmp_dir_on_error (inp : ExtractInput)
    (htmp : inp.tmpDir ≠ "")
    (hraw : 3 ≤ inp.rawBytes.length)
    (hgz : isGzipHeader inp.rawBytes = true → inp.gzipOk = true)
    (hfail : (ExtractTarballTmp inp).error.isSome = true) :
    (ExtractTarballTmp inp).dir = inp.tmpDir ∧ (ExtractTarballTmp inp).dir ≠ "" := by
  have hcond : (isGzipHeader inp.rawBytes && !inp.gzipOk) = false := by
    cases hh : isGzipHeader inp.rawBytes
    · simp
    · simp [hgz hh]
  have hun : ExtractTarballTmp inp =
      extractLoop inp.tmpDir inp.tarPath inp.readErr inp.entries [] 0 := by
    simp [ExtractTarballTmp, Nat.not_lt.mpr hraw, hcond]
  rw [hun, extractLoop_dir]
  exact ⟨rfl, htmp⟩

/-- A failure inside the entry loop: the tar reader errors out after zero
entries. -/
def c2wit : ExtractInput :=
  { tmpDir := "/tmp/spdx-tar-extract-2", tarPath := "t.tar", rawBytes := [0, 0, 0],
    gzipOk := true, entries := [], readErr := true }

/-- Witness for C2: a loop-phase failure returns the temp dir path. -/
theorem ExtractTarballTmp_dir_on_error_witness :
    (ExtractTarballTmp c2wit).error.isSome = true ∧
    (ExtractTarballTmp c2wit).dir = c2wit.tmpDir ∧
    (ExtractTarballTmp c2wit).dir ≠ "" := by
  have h := ExtractTarballTmp_dir_on_error c2wit (by decide) (by decide)
    (fun hh => absurd hh (by decide)) rfl
  exact ⟨rfl, h.1, h.2⟩

/-- Concrete input refuting C3 as stated: a single symlink entry whose Size
field claims five bytes.  Header-only typeflags deliver zero bytes and a
bare io.EOF regardless of the Size field, so io.CopyN stops at 0 of 5 bytes
and the line-147 break ends the extraction with a nil error. -/
def c3cex : ExtractInput :=
  { tmpDir := "/tmp/x", tarPath := "t.tar", rawBytes := [0, 0, 0], gzipOk := true,
    entries := [{ name := "link", isDir := false, headerOnly := true,
                  size := 5, avail := 0 }],
    readErr := false }

/-- C3, counterexample: on c3cex the destination file is created with 0 of
the declared 5 bytes, yet the extraction returns no error, refuting the
claim that a copy delivering fewer than Size bytes makes the extraction
fail. -/
theorem ExtractTarballTmp_copy_cex :
    (ExtractTarballTmp c3cex).error = none ∧
    (ExtractTarballTmp c3cex).files = [(goJoin "/tmp/x" "link", 0)] ∧
    c3cex.entries.map (fun e => e.size) = [5] :=
  ⟨rfl, rfl, rfl⟩

/-- C3 (amended): for every non-directory, non-whiteout tar entry with a
data body (not a header-only typeflag) that the extraction loop reaches and
whose destination passes the Zip-Slip guard, a truncated body (fewer than
size bytes available) makes the whole extraction return a non-nil error,
and when the full body is available exactly size bytes are copied into the
destination file.  (For a header-only entry whose Size field is nonzero,
io.CopyN returns a bare io.EOF after zero bytes and line 147 breaks the
loop, returning success after the short copy.) -/
theorem ExtractTarballTmp_copy (inp : ExtractInput)
    (pre post : List TarEntry) (e : TarEntry)
    (hsplit : inp.entries = pre ++ e :: post)
    (hpre : ∀ x ∈ pre, entryOk inp.tmpDir x = true)
    (hdir : e.isDir = false)
    (hwh : hasPfx ".wh" (goBase e.name) = false)
    (hho : e.headerOnly = false)
    (hin : destEscapes inp.tmpDir e.name = false)
    (hraw : 3 ≤ inp.rawBytes.length)
    (hgz : isGzipHeader inp.rawBytes = true → inp.gzipOk = true) :
    (e.avail < e.size → (ExtractTarballTmp inp).error.isSome = true) ∧
    (e.size ≤ e.avail →
      (goJoin inp.tmpDir e.name, e.size) ∈ (ExtractTarballTmp inp).files) := by
  have hcond : (isGzipHeader inp.rawBytes && !inp.gzipOk) = false := by
    cases hh : isGzipHeader inp.rawBytes
    · simp
    · simp [hgz hh]
  have hun : ExtractTarballTmp inp =
      extractLoop inp.tmpDir inp.tarPath inp.readErr inp.entries [] 0 := by
    simp [ExtractTarballTmp, Nat.not_lt.mpr hraw, hcond]
  rcases extractLoop_reach inp.tmpDir inp.tarPath inp.readErr (e :: post) pre hpre [] 0 with
    ⟨files2, c2, heq, _⟩
  have hs := sanitize_of_inside hin
  constructor
  · intro hlt
    have hstep : extractLoop inp.tmpDir inp.tarPath inp.readErr (e :: post) files2 c2 =
        { dir := inp.tmpDir,
          files := files2 ++ [(goJoin inp.tmpDir e.name, min e.size e.avail)],
          count := c2,
          error := some ("extracting image data: unexpected EOF") } := by
      simp [extractLoop, hdir, hwh, hho, hs, copyNErr_of_short hho hlt]
    rw [hun, hsplit, heq, hstep]
    rfl
  · intro hle
    have hmin : min e.size e.avail = e.size := Nat.min_eq_left hle
    have hstep : extractLoop inp.tmpDir inp.tarPath inp.readErr (e :: post) files2 c2 =
        extractLoop inp.tmpDir inp.tarPath inp.readErr post
          (files2 ++ [(goJoin inp.tmpDir e.name, e.size)]) (c2 + 1) := by
      simp [extractLoop, hdir, hwh, hho, hs, copyNErr_of_full hho hle, hmin]
    rw [hun, hsplit, heq, hstep]
    exact extractLoop_files_mem inp.tmpDir inp.tarPath inp.readErr post _ _ _ (by simp)

/-- One regular entry with a truncated body. -/
def c3wit1 : ExtractInput :=
  { tmpDir := "/tmp/x", tarPath := "t.tar", rawBytes := [0, 0, 0], gzipOk := true,
    entries := [{ name := "a.txt", isDir := false, size := 2, avail := 1 }],
    readErr := false }

/-- One regular entry with its full body available. -/
def c3wit2 : ExtractInput :=
  { tmpDir := "/tmp/x", tarPath := "t.tar", rawBytes := [0, 0, 0], gzipOk := true,
    entries := [{ name := "a.txt", isDir := false, size := 2, avail := 2 }],
    readErr := false }

/-- Witness for C3: the truncated regular body aborts the extraction with an
error; the complete body yields a destination file holding exactly size
bytes. -/
theorem ExtractTarballTmp_copy_witness :
    (ExtractTarballTmp c3wit1).error.isSome = true ∧
    ("/tmp/x/a.txt", 2) ∈ (ExtractTarballTmp c3wit2).files := by
  constructor
  · exact (ExtractTarballTmp_copy c3wit1 [] []
      { name := "a.txt", isDir := false, size := 2, avail := 1 }
      rfl (by simp) rfl rfl rfl rfl (by decide)
      (fun hh => absurd hh (by decide))).1 (by decide)
  · exact (ExtractTarballTmp_copy c3wit2 [] []
      { name := "a.txt", isDir := false, size := 2, avail := 2 }
      rfl (by simp) rfl rfl rfl rfl (by decide)
      (fun hh => absurd hh (by decide))).2 (by decide)

/-- Concrete input refuting C4 as stated: a symlink entry with a nonzero
Size field followed by an ordinary regular entry. -/
def c4cex : ExtractInput :=
  { tmpDir := "/tmp/x", tarPath := "t.tar", rawBytes := [0, 0, 0], gzipOk := true,
    entries := [{ name := "link", isDir := false, headerOnly := true,
                  size := 5, avail := 0 },
                { name := "a.txt", isDir := false, size := 2, avail := 2 }],
    readErr := false }

/-- C4, counterexample: on c4cex the copy of the header-only entry returns a
bare io.EOF, line 147 breaks the loop before either entry is tallied, and
the extraction reports success with a count of 0 against two
non-directory, non-whiteout entries. -/
theorem ExtractTarballTmp_file_count_cex :
    (ExtractTarballTmp c4cex).error = none ∧
    (ExtractTarballTmp c4cex).count = 0 ∧
    (c4cex.entries.filter isFileEntry).length = 2 :=
  ⟨rfl, rfl, rfl⟩

/-- C4 (amended): for every archive successfully extracted by
ExtractTarballTmp in which every header-only entry (link, symlink, char,
block, fifo typeflag) has a zero Size field, the tallied and logged file
count equals the number of entries that are neither directory entries nor
entries whose base name begins with ".wh".  (A header-only entry with a
nonzero Size field breaks the loop with a nil error before it is tallied,
so the count misses it and every later entry.) -/
theorem ExtractTarballTmp_file_count (inp : ExtractInput)
    (hsafe : ∀ e ∈ inp.entries, e.headerOnly = true → e.size = 0)
    (hok : (ExtractTarballTmp inp).error = none) :
    (ExtractTarballTmp inp).count = (inp.entries.filter isFileEntry).length := by
  by_cases h3 : inp.rawBytes.length < 3
  · rw [ExtractTarballTmp, if_pos h3] at hok
    simp at hok
  · by_cases hgzf : (isGzipHeader inp.rawBytes && !inp.gzipOk) = true
    · rw [ExtractTarballTmp, if_neg h3, if_pos hgzf] at hok
      simp at hok
    · have hcond : (isGzipHeader inp.rawBytes && !inp.gzipOk) = false :=
        Bool.eq_false_iff.mpr hgzf
      have hun : ExtractTarballTmp inp =
          extractLoop inp.tmpDir inp.tarPath inp.readErr inp.entries [] 0 := by
        simp [ExtractTarballTmp, h3, hcond]
      rw [hun] at hok ⊢
      simpa using extractLoop_count inp.tmpDir inp.tarPath inp.readErr
        inp.entries hsafe [] 0 hok

/-- An archive with one directory header, one whiteout, one ordinary
symlink (header-only, Size zero), and one regular file. -/
def c4wit : ExtractInput :=
  { tmpDir := "/tmp/x", tarPath := "t.tar", rawBytes := [0, 0, 0], gzipOk := true,
    entries := [{ name := "d/", isDir := true, size := 0, avail := 0 },
                { name := ".wh.gone", isDir := false, size := 3, avail := 3 },
                { name := "ln", isDir := false, headerOnly := true,
                  size := 0, avail := 0 },
                { name := "a.txt", isDir := false, size := 2, avail := 2 }],
    readErr := false }

/-- Witness for C4: the successful extraction of c4wit counts exactly its
two non-directory, non-whiteout entries (the zero-size symlink and the
regular file). -/
theorem ExtractTarballTmp_file_count_witness :
    (ExtractTarballTmp c4wit).count = 2 ∧
    (c4wit.entries.filter isFileEntry).length = 2 := by
  have h := ExtractTarballTmp_file_count c4wit (by decide) rfl
  exact ⟨h.trans (by rfl), rfl⟩


/-! ## Ignore engine: IgnorePatterns and ApplyIgnorePatterns -/

/-- A compiled gitignore pattern of the external go-git library, modelled by
its source line (gitignore.ParsePattern with a nil domain keeps everything
the matcher needs and is injective in the line for the purposes of the
claims). -/
structure Pattern where
  line : String
deriving DecidableEq, Repr

/-- gitignore.ParsePattern with a nil domain. -/
def ParsePattern (s : String) : Pattern := ⟨s⟩

/-- Componentwise glob match where a star component matches any single path
component. -/
def compsMatch : List String → List String → Bool
  | [], _ => true
  | _ :: _, [] => false
  | p :: ps, c :: cs => (p = "*" || p = c) && compsMatch ps cs

/-- One pattern against one split path: none when the pattern does not
apply, some r when it does, r being false for a negated pattern.  This
models the external go-git matcher to the depth the spec describes
(leading bang negation, trailing slash directory patterns, slash-free
patterns matching at any depth, anchored multi-component patterns matching
from the root); no claim depends on finer per-pattern glob details. -/
def patternMatch (p : Pattern) (comps : List String) : Option Bool :=
  let neg := hasPfx "!" p.line
  let body := if neg then String.mk (p.line.data.drop 1) else p.line
  let body2 :=
    if hasSfx "/" body then String.mk (body.data.take (body.data.length - 1)) else body
  let pcomps := (goSplit '/' body2).filter (fun c => !(c = "" : Bool))
  let hit :=
    match pcomps with
    | [single] => comps.any (fun c => single = "*" || single = c)
    | ps => compsMatch ps comps
  if hit then some (!neg) else none

/-- gitignore.NewMatcher(patterns).Match: the last applicable pattern wins;
no applicable pattern means not ignored. -/
def matcherMatch (ps : List Pattern) (comps : List String) : Bool :=
  ps.foldl
    (fun acc p =>
      match patternMatch p comps with
      | some r => r
      | none => acc)
    false

/-- ApplyIgnorePatterns (implementation.go lines 506-528): keep exactly the
files the matcher does not ignore, matching each file split on the path
separator. -/
def ApplyIgnorePatterns (fileList : List String) (patterns : List Pattern) : List String :=
  fileList.filter (fun file => !(matcherMatch patterns (goSplit '/' file)))

/-- IgnorePatterns (implementation.go lines 465-503).  The filesystem is
modelled by gitignoreLines: none when no .gitignore exists at the scan root
(util.Exists false), some lines when it does; os.Open is assumed to
succeed.  Extra patterns are compiled first; when gitignore loading is
enabled and the file exists, the ".git/" pattern is appended, then every
line that is neither a comment nor blank after trimming. -/
def IgnorePatterns (extraPatterns : List String) (skipGitIgnore : Bool)
    (gitignoreLines : Option (List String)) : List Pattern :=
  let patterns := extraPatterns.map ParsePattern
  if skipGitIgnore then patterns
  else
    match gitignoreLines with
    | none => patterns
    | some lines =>
      (patterns ++ [ParsePattern ".git/"]) ++
        (lines.filter
          (fun s => !(hasPfx "#" s) && 0 < (goTrimSpace s).data.length)).map ParsePattern

example :
    ApplyIgnorePatterns ["a.txt", "b.log", ".git/HEAD"]
      (IgnorePatterns [] false (some ["*.log"])) = ["a.txt", "b.log"] := rfl
example :
    ApplyIgnorePatterns ["a.txt", "b.log", ".git/HEAD"]
      (IgnorePatterns ["b.log"] false (some [])) = ["a.txt"] := rfl

/-! ## Claims C5 and C9: the ignore engine -/

/-- C5, counterexample: with gitignore loading enabled but no .gitignore
file at the scan root, the ".git/" pattern is not in the compiled list
(the append sits inside the util.Exists branch, line 478). -/
theorem IgnorePatterns_git_cex :
    ¬(ParsePattern ".git/" ∈ IgnorePatterns [] false none) := by
  decide

/-- C5 (amended): for every call to IgnorePatterns with gitignore loading
enabled and a .gitignore file present at the scan root, the ".git/" pattern
is in the compiled list, positioned directly after all caller-supplied
extra patterns.  (With no .gitignore file present it is absent.) -/
theorem IgnorePatterns_git_after_extras (extras lines : List String) :
    ∃ rest,
      IgnorePatterns extras false (some lines) =
        extras.map ParsePattern ++ ParsePattern ".git/" :: rest :=
  ⟨(lines.filter
      (fun s => !(hasPfx "#" s) && 0 < (goTrimSpace s).data.length)).map ParsePattern,
    by simp [IgnorePatterns]⟩

/-- C9: applying ignore patterns is idempotent. -/
theorem ApplyIgnorePatterns_idempotent (fileList : List String) (patterns : List Pattern) :
    ApplyIgnorePatterns (ApplyIgnorePatterns fileList patterns) patterns =
      ApplyIgnorePatterns fileList patterns := by
  simp [ApplyIgnorePatterns, List.filter_filter]

/-! ## The SPDX package data model

The Package and Relationship types live in the repository outside the file
under audit, so their shape is modelled from the spec (sections 3 and 4.8):
a Package carries flat attributes, contained files, nested sub-packages,
external references and typed relationships.  The Go relationship peer is a
pointer into a cyclic graph (root CONTAINS child, child VARIANT_OF root);
following the spec design note, the back-edge is modelled by the peer
package identifier, and builders return the peer packages alongside the
root. -/

/-- An external reference triple; the source always attaches the
PACKAGE-MANAGER purl kind. -/
structure ExternalRef where
  Category : String
  RefType : String
  Locator : String
deriving DecidableEq, Repr

/-- The relationship taxonomy used by the assembler. -/
inductive RelationshipType where
  | CONTAINS
  | VARIANT_OF
  | DEPENDS_ON
  | DESCRIBES
deriving DecidableEq, Repr

/-- Modelled from the spec: a typed directed relationship; Peer is the peer
package identifier, with the full-render flag and the comment of the
source. -/
structure Relationship where
  PeerID : String
  RType : RelationshipType
  FullRender : Bool := false
  Comment : String := ""
deriving DecidableEq, Repr

/-- All non-recursive Package attributes. -/
structure PackageData where
  ID : String := ""
  Name : String := ""
  Version : String := ""
  DownloadLocation : String := ""
  LicenseConcluded : String := ""
  FilesAnalyzed : Bool := false
  SupplierPerson : String := ""
  HomePage : String := ""
  WorkDir : String := ""
  SourceFile : String := ""
  Files : List String := []
  ExternalRefs : List ExternalRef := []
  Relationships : List Relationship := []
deriving DecidableEq, Repr

/-- Modelled from the spec: an SPDX Package: flat attributes plus nested
sub-packages. -/
inductive Package where
  | mk (data : PackageData) (SubPackages : List Package)

/-- Flat attributes of a package. -/
def Package.data : Package → PackageData
  | .mk d _ => d

/-- Nested sub-packages of a package. -/
def Package.SubPackages : Package → List Package
  | .mk _ s => s

/-- NewPackage: a fresh empty package. -/
def NewPackage : Package := .mk {} []

/-- Updates the flat attributes of a package. -/
def Package.withData (p : Package) (f : PackageData → PackageData) : Package :=
  .mk (f p.data) p.SubPackages

/-- Modelled from the spec: AddPackage nests a sub-package. -/
def Package.AddPackage (p sub : Package) : Package :=
  .mk p.data (p.SubPackages ++ [sub])

/-- Modelled from the spec: AddRelationship appends a typed relationship. -/
def Package.AddRelationship (p : Package) (r : Relationship) : Package :=
  p.withData (fun d => { d with Relationships := d.Relationships ++ [r] })

/-- Modelled from the spec: AddFile appends a contained file (tracked by its
path; hashes are not needed by any claim). -/
def Package.AddFile (p : Package) (f : String) : Package :=
  p.withData (fun d => { d with Files := d.Files ++ [f] })

/-- Modelled from the spec: BuildID derives a deterministic identifier from
its seed strings (section 4.8; the within-document uniqueness salt is
irrelevant to the claims and omitted). -/
def buildID (seeds : List String) : String :=
  "SPDXRef-Package-" ++ goJoinStrings '-' seeds

/-- Sets the package identifier from BuildID seeds. -/
def Package.BuildID (p : Package) (seeds : List String) : Package :=
  p.withData (fun d => { d with ID := buildID seeds })

/-- The recognized assembler options (spec section 6). -/
structure Options where
  AddTarFiles : Bool := false
  AnalyzeLayers : Bool := false
  ScanImages : Bool := false
  ScanLicenses : Bool := false
  OnlyDirectDeps : Bool := false
  IgnorePatterns : List String := []
  NoGitignore : Bool := false
  LicenseCacheDir : String := ""
  LicenseData : String := ""
deriving DecidableEq, Repr

/-! ## Directory scanner: PackageFromDirectory -/

/-- The I/O environment of one PackageFromDirectory call: the directory path
(filepath.Abs assumed to succeed on an already-absolute input), the file
list GetDirectoryTree returns, the .gitignore lines at the root (none when
the file does not exist), and the top-of-directory license tag
GetDirectoryLicense yields (empty when the classifier found no match). -/
structure DirScanInput where
  dirPath : String
  fileList : List String
  gitignoreLines : Option (List String)
  licenseTag : String := ""
deriving DecidableEq, Repr

/-- PackageFromDirectory (implementation.go lines 906-998).  The license
reader construction and the per-file hash and license scan are assumed to
succeed; the concurrent per-file loop is modelled by recording the filtered
file list as the package file set (order unspecified in the source, list
order here). -/
def PackageFromDirectory (opts : Options) (inp : DirScanInput) : Except String Package :=
  let patterns := IgnorePatterns opts.IgnorePatterns opts.NoGitignore inp.gitignoreLines
  let fileList := ApplyIgnorePatterns inp.fileList patterns
  if fileList.length = 0 then
    Except.error ("directory " ++ inp.dirPath ++ " has no files to scan")
  else
    let name0 := goBase inp.dirPath
    let name := if name0 = "" then "uuid-fresh" else name0
    Except.ok (NewPackage.withData (fun d =>
      { d with FilesAnalyzed := true, Name := name,
               LicenseConcluded := inp.licenseTag,
               WorkDir := goDir inp.dirPath,
               Files := fileList }))

/-! ## Claim C8: empty scan list -/

/-- C8: for every directory whose file list is empty after applying the
ignore patterns, PackageFromDirectory fails with the no-files-to-scan error
and returns no package. -/
theorem PackageFromDirectory_no_files (opts : Options) (inp : DirScanInput)
    (h : ApplyIgnorePatterns inp.fileList
      (IgnorePatterns opts.IgnorePatterns opts.NoGitignore inp.gitignoreLines) = []) :
    PackageFromDirectory opts inp =
      Except.error ("directory " ++ inp.dirPath ++ " has no files to scan") := by
  simp [PackageFromDirectory, h]

/-- Witness for C8: scanning an empty directory fails with the
no-files-to-scan error. -/
theorem PackageFromDirectory_no_files_witness :
    PackageFromDirectory {}
      { dirPath := "/src/empty", fileList := [], gitignoreLines := none } =
      Except.error ("directory /src/empty has no files to scan") :=
  PackageFromDirectory_no_files {}
    { dirPath := "/src/empty", fileList := [], gitignoreLines := none } rfl

/-! ## Tarball packages: PackageFromTarball and PackageFromImageTarball -/

/-- Tarball conversion options. -/
structure TarballOptions where
  AddFiles : Bool := false
  ExtractDir : String := ""
deriving DecidableEq, Repr

/-- PackageFromTarball (implementation.go lines 411-438): when AddFiles is
set, extract the tarball (the extraction and the walk of the resulting temp
directory are modelled by the dirScan input, with extraction assumed to
succeed) and build the package from the contents; otherwise start from an
empty package.  Either way the work dir is set from the options and the
tarball itself is hashed as the package source (recorded here as the
SourceFile path, ReadSourceFile assumed to succeed). -/
def PackageFromTarball (opts : Options) (tarOpts : TarballOptions)
    (dirScan : DirScanInput) (tarFile : String) : Except String Package :=
  if tarOpts.AddFiles then
    match PackageFromDirectory opts dirScan with
    | Except.error e => Except.error ("generating package from tar contents: " ++ e)
    | Except.ok p =>
      Except.ok (p.withData (fun d =>
        { d with WorkDir := tarOpts.ExtractDir, SourceFile := tarFile }))
  else
    Except.ok (NewPackage.withData (fun d =>
      { d with WorkDir := tarOpts.ExtractDir, SourceFile := tarFile }))

/-- The Docker archive manifest entry (manifest.json). -/
structure ArchiveManifest where
  Config : String := ""
  RepoTags : List String := []
  LayerFiles : List String := []
deriving DecidableEq, Repr

/-- One parsed OS package DB entry as the osinfo container scanner returns
it; the PackageURL method result is modelled as data. -/
structure OSPackageDBEntry where
  Package : String := ""
  Version : String := ""
  HomePage : String := ""
  MaintainerName : String := ""
  MaintainerEmail : String := ""
  PackageURL : String := ""
deriving DecidableEq, Repr

/-- The I/O environment of one PackageFromImageTarball call: the archive
path, the temp directory its extraction produced, the parsed archive
manifest, one directory-scan environment per layer (what the extraction of
that layer would show PackageFromDirectory), and the OS scanner results
(the layer index whose OS database was read, and the parsed entries),
consulted only when ScanImages is set. -/
structure ImageTarballInput where
  tarPath : String
  extractDir : String
  manifest : ArchiveManifest
  layerScans : List DirScanInput
  osLayerNum : Nat := 0
  osPackages : List OSPackageDBEntry := []
deriving DecidableEq, Repr

/-- The OS package synthesized for one DB entry (lines 865-887): name,
version, homepage, the maintainer rendered as Name (email) when present,
the purl external reference when non-empty, and an ID built from the layer
package ID. -/
def osPackageFromEntry (layerID : String) (entry : OSPackageDBEntry) : Package :=
  Package.mk
    { Name := entry.Package, Version := entry.Version, HomePage := entry.HomePage,
      SupplierPerson :=
        if entry.MaintainerName ≠ "" then
          (if entry.MaintainerEmail ≠ "" then
            entry.MaintainerName ++ " (" ++ entry.MaintainerEmail ++ ")"
          else entry.MaintainerName)
        else "",
      ExternalRefs :=
        if entry.PackageURL ≠ "" then
          [{ Category := "PACKAGE-MANAGER", RefType := "purl", Locator := entry.PackageURL }]
        else [],
      ID := buildID [layerID] }
    []

/-- The package built for one layer inside the loop of
PackageFromImageTarball (lines 843-894): the PackageFromTarball result with
its ID rebuilt from the repo tag and the layer file, and, when this layer
is the one the OS scanner identified (and scanning ran), the synthesized OS
packages nested inside it. -/
def layerPackage (repoTag : String) (osLayerNum : Nat)
    (osData : Option (List OSPackageDBEntry)) (i : Nat)
    (layerFile : String) (pkg0 : Package) : Package :=
  let pkg1 := pkg0.BuildID [repoTag, layerFile]
  match osData with
  | some osPackages =>
    if i = osLayerNum then
      osPackages.foldl
        (fun a entry => a.AddPackage (osPackageFromEntry pkg1.data.ID entry)) pkg1
    else pkg1
  | none => pkg1

/-- The layer loop of PackageFromImageTarball (lines 843-894): build one
package per layer file via PackageFromTarball, run the layer analyzer when
AnalyzeLayers is set (an injectable plug-in, modelled as the no-op the core
must support), and nest each layer package in the image package. -/
def imageLayersLoop (spdxOpts : Options) (tarOpts : TarballOptions) (repoTag : String)
    (osLayerNum : Nat) (osData : Option (List OSPackageDBEntry)) :
    Nat → List (String × DirScanInput) → Package → Except String Package
  | _, [], acc => Except.ok acc
  | i, (layerFile, scan) :: rest, acc =>
    match PackageFromTarball spdxOpts tarOpts scan (goJoin tarOpts.ExtractDir layerFile) with
    | Except.error e => Except.error ("building package from layer: " ++ e)
    | Except.ok pkg0 =>
      imageLayersLoop spdxOpts tarOpts repoTag osLayerNum osData
        (i + 1) rest
        (acc.AddPackage (layerPackage repoTag osLayerNum osData i layerFile pkg0))

/-- PackageFromImageTarball (implementation.go lines 767-898): reject an
empty tar path, enable individual file expansion only when AddTarFiles is
set and AnalyzeLayers is not (lines 781-783), extract the archive, read its
manifest, reject missing or empty RepoTags, create the image package named
after the first repo tag, and run the layer loop. -/
def PackageFromImageTarball (spdxOpts : Options) (inp : ImageTarballInput) :
    Except String Package :=
  if inp.tarPath = "" then Except.error ("tar path empty")
  else
    let tarOpts : TarballOptions :=
      { AddFiles := spdxOpts.AddTarFiles && !spdxOpts.AnalyzeLayers,
        ExtractDir := inp.extractDir }
    if inp.manifest.RepoTags.length = 0 then
      Except.error ("no RepoTags found in manifest")
    else if inp.manifest.RepoTags.headD "" = "" then
      Except.error ("unable to add tar archive, manifest does not have a RepoTags entry")
    else
      let repoTag := inp.manifest.RepoTags.headD ""
      let imagePackage := NewPackage.withData (fun d =>
        { d with WorkDir := tarOpts.ExtractDir, Name := repoTag, ID := buildID [repoTag] })
      let osData : Option (List OSPackageDBEntry) :=
        if spdxOpts.ScanImages then some inp.osPackages else none
      imageLayersLoop spdxOpts tarOpts repoTag inp.osLayerNum osData
        0 (inp.manifest.LayerFiles.zip inp.layerScans) imagePackage

theorem foldl_AddPackage_data (f : OSPackageDBEntry → Package)
    (l : List OSPackageDBEntry) :
    ∀ q : Package, (l.foldl (fun a entry => a.AddPackage (f entry)) q).data = q.data := by
  induction l with
  | nil => intro q; rfl
  | cons x xs ihl =>
    intro q
    rw [List.foldl_cons, ihl]
    rfl

theorem layerPackage_data (repoTag : String) (osLayerNum : Nat)
    (osData : Option (List OSPackageDBEntry)) (i : Nat)
    (layerFile : String) (pkg0 : Package) :
    (layerPackage repoTag osLayerNum osData i layerFile pkg0).data =
      (pkg0.BuildID [repoTag, layerFile]).data := by
  unfold layerPackage
  cases osData with
  | none => rfl
  | some osPackages =>
    by_cases hi : i = osLayerNum
    · simp only [hi, if_pos rfl]
      exact foldl_AddPackage_data _ osPackages _
    · simp [hi]

theorem PackageFromTarball_files_empty (opts : Options) (tarOpts : TarballOptions)
    (scan : DirScanInput) (tarFile : String) (p : Package)
    (hflag : tarOpts.AddFiles = false)
    (h : PackageFromTarball opts tarOpts scan tarFile = Except.ok p) :
    p.data.Files = [] := by
  rw [PackageFromTarball, hflag] at h
  simp at h
  rw [← h]
  rfl

theorem imageLayersLoop_ok (spdxOpts : Options) (tarOpts : TarballOptions)
    (repoTag : String) (osLayerNum : Nat) (osData : Option (List OSPackageDBEntry)) :
    ∀ (layers : List (String × DirScanInput)) (i : Nat) (acc p : Package),
      imageLayersLoop spdxOpts tarOpts repoTag osLayerNum osData i layers acc =
        Except.ok p →
      p.data = acc.data ∧
      ∃ news, p.SubPackages = acc.SubPackages ++ news ∧
        (tarOpts.AddFiles = false → ∀ s ∈ news, s.data.Files = []) := by
  intro layers
  induction layers with
  | nil =>
    intro i acc p h
    have hp : p = acc := by
      simpa [imageLayersLoop] using h.symm
    subst hp
    exact ⟨rfl, [], by simp, by simp⟩
  | cons layer rest ih =>
    intro i acc p h
    rcases layer with ⟨layerFile, scan⟩
    rcases hpt : PackageFromTarball spdxOpts tarOpts scan
        (goJoin tarOpts.ExtractDir layerFile) with e | pkg0
    · rw [imageLayersLoop, hpt] at h
      exact absurd h (by simp)
    · rw [imageLayersLoop, hpt] at h
      have h2 : imageLayersLoop spdxOpts tarOpts repoTag osLayerNum osData
          (i + 1) rest
          (acc.AddPackage (layerPackage repoTag osLayerNum osData i layerFile pkg0)) =
          Except.ok p := h
      rcases ih (i + 1) _ p h2 with ⟨hdata, news, hsubs, hfiles⟩
      refine ⟨hdata.trans rfl, layerPackage repoTag osLayerNum osData i layerFile pkg0 :: news,
        ?_, ?_⟩
      · rw [hsubs]
        simp [Package.AddPackage, Package.SubPackages, Package.data]
      · intro hflag s hs
        rcases List.mem_cons.mp hs with hs | hs
        · subst hs
          have hl := layerPackage_data repoTag osLayerNum osData i layerFile pkg0
          have h0 := PackageFromTarball_files_empty spdxOpts tarOpts scan _ pkg0 hflag hpt
          calc (layerPackage repoTag osLayerNum osData i layerFile pkg0).data.Files
              = (pkg0.BuildID [repoTag, layerFile]).data.Files := by rw [hl]
            _ = pkg0.data.Files := rfl
            _ = [] := h0
        · exact hfiles hflag s hs

/-- C10: in PackageFromImageTarball, whenever AnalyzeLayers is set (or
AddTarFiles is unset), the tarball options enable no file expansion, so
every layer package in the produced image package carries no individual
Files even when AddTarFiles is also set; expansion is enabled only when
AddTarFiles is set and AnalyzeLayers is not (lines 781-783). -/
theorem PackageFromImageTarball_no_file_expansion (opts : Options)
    (inp : ImageTarballInput) (p : Package)
    (hok : PackageFromImageTarball opts inp = Except.ok p)
    (hcase : opts.AnalyzeLayers = true ∨ opts.AddTarFiles = false) :
    ∀ sub ∈ p.SubPackages, sub.data.Files = [] := by
  have hflag : (opts.AddTarFiles && !opts.AnalyzeLayers) = false := by
    rcases hcase with hc | hc <;> simp [hc]
  by_cases ht : inp.tarPath = ""
  · rw [PackageFromImageTarball, if_pos ht] at hok
    exact absurd hok (by simp)
  · by_cases hr0 : inp.manifest.RepoTags.length = 0
    · rw [PackageFromImageTarball, if_neg ht] at hok
      simp only [hr0, if_pos rfl] at hok
      exact absurd hok (by simp)
    · by_cases hr1 : inp.manifest.RepoTags.headD "" = ""
      · rw [PackageFromImageTarball, if_neg ht, if_neg hr0, if_pos hr1] at hok
        exact absurd hok (by simp)
      · rw [PackageFromImageTarball, if_neg ht, if_neg hr0, if_neg hr1] at hok
        rcases imageLayersLoop_ok opts
            { AddFiles := opts.AddTarFiles && !opts.AnalyzeLayers,
              ExtractDir := inp.extractDir }
            (inp.manifest.RepoTags.headD "") inp.osLayerNum
            (if opts.ScanImages then some inp.osPackages else none)
            (inp.manifest.LayerFiles.zip inp.layerScans) 0 _ p hok with
          ⟨_, news, hsubs, hfiles⟩
        intro sub hsub
        rw [hsubs] at hsub
        rcases List.mem_append.mp hsub with hs | hs
        · exact absurd hs (by simp [NewPackage, Package.withData, Package.SubPackages])
        · exact hfiles hflag sub hs

/-- Options with both AnalyzeLayers and AddTarFiles set. -/
def c10opts : Options := { AddTarFiles := true, AnalyzeLayers := true }

/-- A one-layer image archive environment. -/
def c10inp : ImageTarballInput :=
  { tarPath := "/tmp/img.tar", extractDir := "/tmp/doc-build-1",
    manifest := { Config := "config.json", RepoTags := ["example.com/app:v1"],
                  LayerFiles := ["layer0.tar"] },
    layerScans := [{ dirPath := "/tmp/layer0", fileList := ["bin/sh"],
                     gitignoreLines := none }] }

/-- The image package built from c10inp under c10opts. -/
def c10pkg : Package :=
  match PackageFromImageTarball c10opts c10inp with
  | Except.ok p => p
  | Except.error _ => NewPackage

/-- Witness for C10: with AnalyzeLayers and AddTarFiles both set, the single
layer package exists and carries no individual Files. -/
theorem PackageFromImageTarball_no_file_expansion_witness :
    c10pkg.SubPackages.length = 1 ∧ ∀ sub ∈ c10pkg.SubPackages, sub.data.Files = [] :=
  ⟨rfl, PackageFromImageTarball_no_file_expansion c10opts c10inp c10pkg rfl (Or.inl rfl)⟩

/-! ## Reference resolver and purl builder -/

/-- One child image of a multi-arch index as the resolver and fetcher
produce it.  The Go ImageReferenceInfo type is recursive through its Images
field; children of an index never themselves carry children in this code,
so the child level is modelled flat. -/
structure ChildImage where
  Digest : String := ""
  MediaType : String := ""
  Arch : String := ""
  OS : String := ""
  Archive : String := ""
  Reference : String := ""
deriving DecidableEq, Repr

/-- The resolver result for one reference: the index-level fields plus the
child images. -/
structure ImageReferenceInfo where
  Digest : String := ""
  MediaType : String := ""
  Arch : String := ""
  OS : String := ""
  Archive : String := ""
  Reference : String := ""
  Images : List ChildImage := []
deriving DecidableEq, Repr

/-- The child record getImageReferences appends for one index manifest
(implementation.go lines 284-310): the synthesized digest-form string, the
media type, and the platform fields (empty when the platform block is
absent).  No other field is set; in particular Reference stays empty. -/
def mkIndexChild (registryRepo algo hex mediaType : String)
    (platform : Option (String × String)) : ChildImage :=
  { Digest := registryRepo ++ "@" ++ algo ++ ":" ++ hex,
    MediaType := mediaType,
    Arch := (platform.map Prod.fst).getD "",
    OS := (platform.map Prod.snd).getD "" }

/-- The hex portion of a digest-form reference string: the part after the
colon of the digest string after the at sign (PullImagesToArchive lines
371-376). -/
def digestHexPart (digest : String) : String :=
  (goSplit ':' ((goSplit '@' digest).getLastD "")).getD 1 ""

/-- PullImagesToArchive (implementation.go lines 334-408): each child is
downloaded into outDir under the name hex.tar and recorded with its Archive
path.  The bounded-concurrency download itself is environmental and assumed
to succeed; completion order is unspecified in the source and modelled as
source order.  Every other child field, Reference included, is copied
unchanged. -/
def PullImagesToArchive (outDir : String) (references : ImageReferenceInfo) :
    ImageReferenceInfo :=
  { references with
    Images := references.Images.map (fun r =>
      { r with Archive := goJoin outDir (digestHexPart r.Digest ++ ".tar") }) }

/-- A parsed OCI reference of the external go-containerregistry name
package, to the depth this source exercises it: a tag reference (repository
context plus the full tag string) or a digest reference (repository context
plus the digest string after the at sign). -/
inductive GoNameRef where
  | tagRef (repoName tagStr : String)
  | digestRef (repoName digestStr : String)
deriving DecidableEq, Repr

/-- Model of name.ParseReference: the empty string fails to parse; a string
containing an at sign parses as a digest reference; anything else parses as
a tag reference, defaulting to the latest tag when no colon is present.
Registry defaulting and port-carrying registry hosts sit outside the
modelled fragment (no claim exercises them). -/
def parseReference (s : String) : Option GoNameRef :=
  if s = "" then none
  else if containsChar '@' s then
    match goSplit '@' s with
    | [rp, d] =>
      if rp = "" ∨ d = "" then none else some (GoNameRef.digestRef rp d)
    | _ => none
  else
    match goSplit ':' s with
    | [n] => if n = "" then none else some (GoNameRef.tagRef n (n ++ ":latest"))
    | [n, t] => if n = "" ∨ t = "" then none else some (GoNameRef.tagRef n (n ++ ":" ++ t))
    | _ => none

/-- Context().Name() of a parsed reference: the repository part. -/
def refContextName : GoNameRef → String
  | GoNameRef.tagRef n _ => n
  | GoNameRef.digestRef n _ => n

/-- purlFromImage (implementation.go lines 604-659).  The crane argument
models the crane.Digest registry query used when the reference is not
digest-form (none meaning the query fails).  Returns the empty string
whenever construction is impossible: unparseable (in particular empty)
reference, failed digest resolution, or a repository without a slash.  The
qualifier map is emitted in the canonical sorted key order of the purl
library (arch, mediaType, os, repository_url, tag); percent-encoding is
omitted as no claim inspects encoded characters. -/
def purlFromImage (crane : String → Option String) (img : ChildImage) : String :=
  match parseReference img.Reference with
  | none => ""
  | some r =>
    let digestq : Option String :=
      match r with
      | GoNameRef.digestRef _ d => some d
      | GoNameRef.tagRef _ _ => crane img.Reference
    match digestq with
    | none => ""
    | some digest =>
      let url := refContextName r
      let parts := goSplit '/' url
      if parts.length < 2 then ""
      else
        let imageName := parts.getLastD ""
        let url2 := trimSfx url ("/" ++ imageName)
        let qualifiers :=
          (if img.Arch ≠ "" then [("arch", img.Arch)] else []) ++
          (if img.MediaType ≠ "" then [("mediaType", img.MediaType)] else []) ++
          (if img.OS ≠ "" then [("os", img.OS)] else []) ++
          [("repository_url", url2)] ++
          (match r with
           | GoNameRef.tagRef _ ts => [("tag", ts)]
           | GoNameRef.digestRef _ _ => [])
        "pkg:oci/" ++ imageName ++ "@" ++ digest ++ "?" ++
          goJoinStrings '&' (qualifiers.map (fun q => q.1 ++ "=" ++ q.2))

example : purlFromImage (fun _ => none) { Reference := "" } = "" := rfl
example :
    purlFromImage (fun _ => some "sha256:abcd")
      { Reference := "example.com/library/app:v1", Arch := "amd64", OS := "linux" } =
    "pkg:oci/app@sha256:abcd?arch=amd64&os=linux&repository_url=example.com/library&tag=example.com/library/app:v1" := rfl

/-! ## Multi-arch assembly: ImageRefToPackage -/

/-- name.NewDigest: parse a digest-form reference, yielding the repository
context and the digest string (DigestStr). -/
def newDigestParse (s : String) : Option (String × String) :=
  match parseReference s with
  | some (GoNameRef.digestRef rp d) => some (rp, d)
  | _ => none

/-- The sub-package name of one child image (implementation.go lines
720-728): the reference decorated with the platform when any platform field
is known, else the child's own Reference. -/
def subpkgName (ref : String) (img : ChildImage) : String :=
  if img.Arch ≠ "" ∨ img.OS ≠ "" then
    ref ++ " (" ++ img.Arch ++ (if img.Arch ≠ "" then "/" else "") ++ img.OS ++ ")"
  else img.Reference

/-- The sub-package the multi-arch loop derives from one child image (lines
715-737): the PackageFromImageTarball result renamed for the platform, with
its purl external reference attached when one could be built, and the
VARIANT_OF back-edge to the root. -/
def childSubPackage (crane : String → Option String) (ref rootID : String)
    (img : ChildImage) (sp0 : Package) : Package :=
  let sp1 := sp0.withData (fun d => { d with Name := subpkgName ref img })
  let purlStr := purlFromImage crane img
  let sp2 :=
    if purlStr ≠ "" then
      sp1.withData (fun d =>
        { d with ExternalRefs := d.ExternalRefs ++
            [{ Category := "PACKAGE-MANAGER", RefType := "purl", Locator := purlStr }] })
    else sp1
  sp2.AddRelationship
    { PeerID := rootID, RType := RelationshipType.VARIANT_OF,
      FullRender := false, Comment := "Image index" }

/-- The per-child loop of the multi-arch path of ImageRefToPackage (lines
713-751): build the sub-package from the child archive, then add root
CONTAINS child (full render).  The relationship peer pointers of the source
are modelled by peer identifiers, and the mutated sub-packages are returned
alongside the root (in Go they stay reachable through the relationship
pointers). -/
def imageRefToPackageLoop (crane : String → Option String) (opts : Options)
    (ref : String) (rootID : String) :
    List (ChildImage × ImageTarballInput) → Package → List Package →
      Except String (Package × List Package)
  | [], root, subs => Except.ok (root, subs)
  | (img, tin) :: rest, root, subs =>
    match PackageFromImageTarball opts tin with
    | Except.error e => Except.error ("adding image variant package: " ++ e)
    | Except.ok sp0 =>
      let sp3 := childSubPackage crane ref rootID img sp0
      let root2 := root.AddRelationship
        { PeerID := sp3.data.ID, RType := RelationshipType.CONTAINS,
          FullRender := true, Comment := "Container image lager" }
      imageRefToPackageLoop crane opts ref rootID rest root2 (subs ++ [sp3])

/-- The root package of the multi-arch path (lines 700-711): fresh, named
after the index digest string, with a deterministic ID, downloading from
the index digest. -/
def multiRootPackage (digest digestStr : String) : Package :=
  NewPackage.withData (fun d =>
    { d with Name := digestStr, ID := buildID [digestStr],
             DownloadLocation := if digest ≠ "" then digest else "" })

/-- The multi-arch branch of ImageRefToPackage (implementation.go lines
698-762), entered when the resolver produced at least one child image: the
root package is named after the index digest, each child contributes a
sub-package and a relationship pair, and finally the root gets its own purl
built from the original user reference.  The crane argument models the
registry digest query; tarIns carries the per-child archive environments
for PackageFromImageTarball, in child order.  The single-image fast path
(zero children) returns earlier in the source and is not modelled. -/
def ImageRefToPackageMulti (crane : String → Option String) (opts : Options)
    (ref : String) (references : ImageReferenceInfo)
    (tarIns : List ImageTarballInput) : Except String (Package × List Package) :=
  match newDigestParse references.Digest with
  | none => Except.error ("parsing digest " ++ references.Digest)
  | some (_, digestStr) =>
    let root0 := multiRootPackage references.Digest digestStr
    match imageRefToPackageLoop crane opts ref root0.data.ID
        (references.Images.zip tarIns) root0 [] with
    | Except.error e => Except.error e
    | Except.ok (root, subs) =>
      let purlStr := purlFromImage crane { Reference := ref }
      Except.ok
        (if purlStr ≠ "" then
          root.withData (fun d =>
            { d with ExternalRefs := d.ExternalRefs ++
                [{ Category := "PACKAGE-MANAGER", RefType := "purl", Locator := purlStr }] })
        else root, subs)

theorem PackageFromImageTarball_clean (opts : Options) (inp : ImageTarballInput)
    (p : Package) (h : PackageFromImageTarball opts inp = Except.ok p) :
    p.data.Relationships = [] ∧ p.data.ExternalRefs = [] := by
  by_cases ht : inp.tarPath = ""
  · rw [PackageFromImageTarball, if_pos ht] at h
    exact absurd h (by simp)
  · by_cases hr0 : inp.manifest.RepoTags.length = 0
    · rw [PackageFromImageTarball, if_neg ht] at h
      simp only [hr0, if_pos rfl] at h
      exact absurd h (by simp)
    · by_cases hr1 : inp.manifest.RepoTags.headD "" = ""
      · rw [PackageFromImageTarball, if_neg ht, if_neg hr0, if_pos hr1] at h
        exact absurd h (by simp)
      · rw [PackageFromImageTarball, if_neg ht, if_neg hr0, if_neg hr1] at h
        rcases imageLayersLoop_ok opts
            { AddFiles := opts.AddTarFiles && !opts.AnalyzeLayers,
              ExtractDir := inp.extractDir }
            (inp.manifest.RepoTags.headD "") inp.osLayerNum
            (if opts.ScanImages then some inp.osPackages else none)
            (inp.manifest.LayerFiles.zip inp.layerScans) 0 _ p h with ⟨hdata, _⟩
        rw [hdata]
        exact ⟨rfl, rfl⟩

theorem childSubPackage_relationships (crane : String → Option String)
    (ref rootID : String) (img : ChildImage) (sp0 : Package)
    (h : sp0.data.Relationships = []) :
    (childSubPackage crane ref rootID img sp0).data.Relationships =
      [{ PeerID := rootID, RType := RelationshipType.VARIANT_OF,
         FullRender := false, Comment := "Image index" }] := by
  rcases sp0 with ⟨d0, subs0⟩
  simp only [Package.data] at h
  unfold childSubPackage
  by_cases hp : purlFromImage crane img ≠ "" <;>
    simp [hp, Package.AddRelationship, Package.withData, Package.data,
      Package.SubPackages, h]

theorem imageRefToPackageLoop_ok (crane : String → Option String) (opts : Options)
    (ref rootID : String) :
    ∀ (l : List (ChildImage × ImageTarballInput)) (root : Package) (subs : List Package)
      (rootF : Package) (subsF : List Package),
      imageRefToPackageLoop crane opts ref rootID l root subs = Except.ok (rootF, subsF) →
      rootF.data.ID = root.data.ID ∧
      ∃ news, subsF = subs ++ news ∧ news.length = l.length ∧
        rootF.data.Relationships = root.data.Relationships ++ news.map (fun s =>
          ({ PeerID := s.data.ID, RType := RelationshipType.CONTAINS,
             FullRender := true, Comment := "Container image lager" } : Relationship)) ∧
        (∀ s ∈ news, s.data.Relationships =
          [{ PeerID := rootID, RType := RelationshipType.VARIANT_OF,
             FullRender := false, Comment := "Image index" }]) := by
  intro l
  induction l with
  | nil =>
    intro root subs rootF subsF h
    simp only [imageRefToPackageLoop, Except.ok.injEq, Prod.mk.injEq] at h
    obtain ⟨hr, hs⟩ := h
    subst hr
    subst hs
    exact ⟨rfl, [], by simp, rfl, by simp, by simp⟩
  | cons pair rest ih =>
    intro root subs rootF subsF h
    rcases pair with ⟨img, tin⟩
    rcases hpt : PackageFromImageTarball opts tin with e | sp0
    · simp only [imageRefToPackageLoop] at h
      rw [hpt] at h
      simp at h
    · simp only [imageRefToPackageLoop] at h
      rw [hpt] at h
      have h2 : imageRefToPackageLoop crane opts ref rootID rest
          (root.AddRelationship
            { PeerID := (childSubPackage crane ref rootID img sp0).data.ID,
              RType := RelationshipType.CONTAINS, FullRender := true,
              Comment := "Container image lager" })
          (subs ++ [childSubPackage crane ref rootID img sp0]) =
          Except.ok (rootF, subsF) := h
      rcases ih _ _ rootF subsF h2 with ⟨hid, news, hsubs, hlen, hrels, hvar⟩
      refine ⟨hid.trans rfl, childSubPackage crane ref rootID img sp0 :: news,
        ?_, ?_, ?_, ?_⟩
      · rw [hsubs]
        simp
      · simp [hlen]
      · rw [hrels]
        simp [Package.AddRelationship, Package.withData, Package.data,
          List.append_assoc]
      · intro s hs
        rcases List.mem_cons.mp hs with hs | hs
        · subst hs
          exact childSubPackage_relationships crane ref rootID img sp0
            (PackageFromImageTarball_clean opts tin sp0 hpt).1
        · exact hvar s hs

/-- C7: for every multi-arch index processed by ImageRefToPackage with n
child images, the root package has exactly n CONTAINS relationships, one to
each child sub-package in order, each with the full-render flag set, and
each child sub-package has exactly one VARIANT_OF relationship back to the
root. -/
theorem ImageRefToPackageMulti_relationships (crane : String → Option String)
    (opts : Options) (ref : String) (references : ImageReferenceInfo)
    (tarIns : List ImageTarballInput) (root : Package) (subs : List Package)
    (hlen : tarIns.length = references.Images.length)
    (hok : ImageRefToPackageMulti crane opts ref references tarIns =
      Except.ok (root, subs)) :
    subs.length = references.Images.length ∧
    root.data.Relationships.length = references.Images.length ∧
    root.data.Relationships = subs.map (fun s =>
      ({ PeerID := s.data.ID, RType := RelationshipType.CONTAINS,
         FullRender := true, Comment := "Container image lager" } : Relationship)) ∧
    ∀ s ∈ subs, s.data.Relationships =
      [{ PeerID := root.data.ID, RType := RelationshipType.VARIANT_OF,
         FullRender := false, Comment := "Image index" }] := by
  rcases hd : newDigestParse references.Digest with _ | ⟨rp, dstr⟩
  · rw [ImageRefToPackageMulti, hd] at hok
    simp at hok
  · rcases hl : imageRefToPackageLoop crane opts ref
        (multiRootPackage references.Digest dstr).data.ID
        (references.Images.zip tarIns) (multiRootPackage references.Digest dstr) []
      with e | pr
    · simp [ImageRefToPackageMulti, hd, hl] at hok
    · rcases pr with ⟨rootL, subsL⟩
      simp only [ImageRefToPackageMulti, hd, hl, Except.ok.injEq, Prod.mk.injEq] at hok
      obtain ⟨hr, hs⟩ := hok
      rcases imageRefToPackageLoop_ok crane opts ref _ _ _ _ rootL subsL hl with
        ⟨hid, news, hsubs, hlennews, hrels, hvar⟩
      have hnews : subsL = news := by simpa using hsubs
      subst hnews
      subst hs
      have hziplen : subsL.length = references.Images.length := by
        rw [hlennews, List.length_zip, hlen, Nat.min_self]
      have hrelsL : rootL.data.Relationships = subsL.map (fun s =>
          ({ PeerID := s.data.ID, RType := RelationshipType.CONTAINS,
             FullRender := true, Comment := "Container image lager" } : Relationship)) := by
        simpa using hrels
      by_cases hp : purlFromImage crane { Reference := ref } ≠ ""
      · rw [if_pos hp] at hr
        have hrd : root.data.Relationships = rootL.data.Relationships := by
          rw [← hr]; rfl
        have hrid : root.data.ID = rootL.data.ID := by
          rw [← hr]; rfl
        refine ⟨hziplen, ?_, ?_, ?_⟩
        · rw [hrd, hrelsL, List.length_map, hziplen]
        · rw [hrd, hrelsL]
        · intro s hs2
          rw [hrid, hid]
          exact hvar s hs2
      · rw [if_neg hp] at hr
        subst hr
        refine ⟨hziplen, ?_, ?_, ?_⟩
        · rw [hrelsL, List.length_map, hziplen]
        · exact hrelsL
        · intro s hs2
          rw [hid]
          exact hvar s hs2

/-- Two index children as getImageReferences builds them: amd64/linux and
arm64/linux; Reference is not among the fields it sets. -/
def idxChildren : List ChildImage :=
  [mkIndexChild "index.docker.io/library/app" "sha256" "bbb"
     "application/vnd.oci.image.manifest.v1+json" (some ("amd64", "linux")),
   mkIndexChild "index.docker.io/library/app" "sha256" "ccc"
     "application/vnd.oci.image.manifest.v1+json" (some ("arm64", "linux"))]

/-- The resolver output for a two-platform index after the fetcher recorded
the archive paths. -/
def idxRefs : ImageReferenceInfo :=
  PullImagesToArchive "/tmp/doc-build-7"
    { Digest := "index.docker.io/library/app@sha256:aaa",
      MediaType := "application/vnd.oci.image.index.v1+json",
      Images := idxChildren }

/-- Per-child archive environments for the two downloaded platform images. -/
def idxTins : List ImageTarballInput :=
  [{ tarPath := "/tmp/doc-build-7/bbb.tar", extractDir := "/tmp/img-bbb",
     manifest := { Config := "c.json", RepoTags := ["app:bbb"], LayerFiles := ["l0.tar"] },
     layerScans := [{ dirPath := "/tmp/img-bbb/l0", fileList := ["bin/sh"],
                      gitignoreLines := none }] },
   { tarPath := "/tmp/doc-build-7/ccc.tar", extractDir := "/tmp/img-ccc",
     manifest := { Config := "c.json", RepoTags := ["app:ccc"], LayerFiles := ["l0.tar"] },
     layerScans := [{ dirPath := "/tmp/img-ccc/l0", fileList := ["bin/sh"],
                      gitignoreLines := none }] }]

/-- A registry digest query that always succeeds, so that a missing purl can
only come from an unusable reference string. -/
def idxCrane : String → Option String := fun _ => some "sha256:dddd"

/-- The multi-arch assembly run on the two-platform index. -/
def idxResult : Except String (Package × List Package) :=
  ImageRefToPackageMulti idxCrane {} "example.com/library/app:v1" idxRefs idxTins

/-- The root package of idxResult. -/
def idxRoot : Package :=
  match idxResult with
  | Except.ok pr => pr.1
  | Except.error _ => NewPackage

/-- The child sub-packages of idxResult. -/
def idxSubs : List Package :=
  match idxResult with
  | Except.ok pr => pr.2
  | Except.error _ => []

/-- Witness for C7: on the two-platform index the root carries exactly two
full-render CONTAINS relationships to the sub-packages and each sub-package
exactly one VARIANT_OF back to the root. -/
theorem ImageRefToPackageMulti_relationships_witness :
    idxSubs.length = 2 ∧
    idxRoot.data.Relationships = idxSubs.map (fun s =>
      ({ PeerID := s.data.ID, RType := RelationshipType.CONTAINS,
         FullRender := true, Comment := "Container image lager" } : Relationship)) ∧
    ∀ s ∈ idxSubs, s.data.Relationships =
      [{ PeerID := idxRoot.data.ID, RType := RelationshipType.VARIANT_OF,
         FullRender := false, Comment := "Image index" }] := by
  have h := ImageRefToPackageMulti_relationships idxCrane {}
    "example.com/library/app:v1" idxRefs idxTins idxRoot idxSubs rfl rfl
  exact ⟨h.1.trans rfl, h.2.2.1, h.2.2.2⟩

/-- C6 (code bug): in the multi-arch path, the children built by
getImageReferences carry an empty Reference field (mkIndexChild sets only
Digest, MediaType and the platform), PullImagesToArchive copies it
unchanged, and purlFromImage fails on an empty reference, so no
sub-package ever receives a purl external reference, even though the
registry digest query succeeds and the root does get its purl.  This
contradicts the claim that every child sub-package carries a purl whose
arch and os qualifiers match its platform. -/
theorem ImageRefToPackageMulti_subpackage_purl_missing :
    idxRefs.Images.map (fun img => img.Reference) = ["", ""] ∧
    idxSubs.map (fun s => s.data.ExternalRefs) = [[], []] ∧
    idxRoot.data.ExternalRefs.length = 1 :=
  ⟨rfl, rfl, rfl⟩
